import Mathlib

set_option maxHeartbeats 1000000

/-!
Shallow embedding of the chatgpt-export-explorer core: the Store Manager
(`storeConversations` and friends, from the database module), the Search
Engine (`globalSearch`), and the Archive Extractor
(`extractConversationsJson` / `isSafePath` from `src/zip-handler.js`).
JavaScript strings are modelled as Lean `String`s (one `Char` per UTF-16
code unit for the ASCII inputs the claims use), JS `undefined` as `Option`,
JS numbers used as timestamps as `Int`, and IndexedDB/Dexie tables as
in-memory lists of rows keyed by an auto-incremented primary key.
-/

/- JavaScript-style string primitives used by the embedded code. -/

def isJsSpace (c : Char) : Bool :=
  c = ' ' || c = '\t' || c = '\n' || c = '\r' || c = '\x0b' || c = '\x0c' ||
  c.toNat = 160 || c.toNat = 65279 || c.toNat = 8232 || c.toNat = 8233

/-- JS `String.prototype.trim`. -/
def jsTrim (s : String) : String :=
  String.mk (((s.toList.dropWhile isJsSpace).reverse.dropWhile isJsSpace).reverse)

/-- JS `String.prototype.length` (UTF-16 units; chars here). -/
def jsLen (s : String) : Nat := s.toList.length

def startsList : List Char → List Char → Bool
  | [], _ => true
  | _ :: _, [] => false
  | a :: as, b :: bs => a = b && startsList as bs

def idxList (needle : List Char) : List Char → Option Nat
  | [] => if startsList needle [] then some 0 else none
  | c :: t => if startsList needle (c :: t) then some 0 else (idxList needle t).map (· + 1)

/-- JS `hay.indexOf(needle)`, `none` for `-1`. -/
def jsIndexOf (hay needle : String) : Option Nat := idxList needle.toList hay.toList

/-- JS `hay.includes(needle)`. -/
def jsIncludes (hay needle : String) : Bool := (jsIndexOf hay needle).isSome

/-- JS `String.prototype.toLowerCase` (ASCII-faithful). -/
def jsToLower (s : String) : String := String.mk (s.toList.map Char.toLower)

/-- JS `s.substring(0, n)`. -/
def jsSubstringTo (s : String) (n : Nat) : String := String.mk (s.toList.take n)

/-- JS `s.substring(a, b)` for `a ≤ b`. -/
def jsSubstringRange (s : String) (a b : Nat) : String :=
  String.mk ((s.toList.drop a).take (b - a))

/-- JS `parts.join(newline)`. -/
def joinNL (parts : List String) : String := String.intercalate "\n" parts

/- ### Data model (JSON payload shape and persisted records) -/

/-- `message.content` of a mapping node: `{parts: [string,...]}` (parts may be absent). -/
structure MessageContent where
  parts : Option (List String)
deriving DecidableEq

/-- `node.message`: author role, optional content, optional create_time. -/
structure NodeMessage where
  role : String
  content : Option MessageContent
  create_time : Option Int
deriving DecidableEq

/-- One node of a conversation's `mapping` object. -/
structure MappingNode where
  id : String
  parent : Option String
  message : Option NodeMessage
deriving DecidableEq

/-- One element of the parsed conversations array. `mapping` is modelled as the
list of its node values in `Object.values` order. -/
structure Conversation where
  id : String
  title : String
  create_time : Option Int
  update_time : Option Int
  mapping : Option (List MappingNode)
deriving DecidableEq

/-- Persisted conversation record (the object stored in the `conversations` table). -/
structure ConvRecord where
  conversation_id : String
  title : String
  create_time : Option Int
  update_time : Option Int
deriving DecidableEq

/-- Persisted message record (the object stored in the `messages` table). -/
structure MsgRecord where
  conversation_id : String
  message_id : String
  role : String
  content : String
  create_time : Option Int
  parent_id : Option String
deriving DecidableEq

/- ### Dexie table model

The schema is `conversations: '++id, ...'` and `messages: '++id, ...'`:
the primary key is the auto-incremented inbound key `id`; all other listed
fields are plain (non-unique) indexes.  `bulkPut` upserts by primary key;
an object that does not carry an `id` property receives a fresh
auto-incremented key, i.e. it is added as a new row. -/

structure Table (α : Type) where
  nextId : Nat
  rows : List (Nat × α)
deriving DecidableEq

def Table.empty {α : Type} : Table α := ⟨1, []⟩

/-- Dexie `bulkPut` for records that carry no inbound primary key:
each record is stored under a fresh auto-incremented `id`. -/
def bulkPut {α : Type} (t : Table α) (recs : List α) : Table α :=
  recs.foldl (fun t r => ⟨t.nextId + 1, t.rows ++ [(t.nextId, r)]⟩) t

/-- One per-export database (class `ChatDatabase`): a `conversations` table and
a `messages` table. -/
structure ChatDatabase where
  conversations : Table ConvRecord
  messages : Table MsgRecord
deriving DecidableEq

def emptyDB : ChatDatabase := ⟨Table.empty, Table.empty⟩

/-- `getDatabase`: the Dexie database name for an export id
(`null`/absent and the falsy empty string select the legacy default DB). -/
def dbNameOf : Option String → String
  | none => "ChatGPTDatabase"
  | some s => if s = "" then "ChatGPTDatabase" else "ChatGPTDatabase_" ++ s

/- ### JS `Map` model: association list, `set` keeps first-insertion position. -/

abbrev MapL (V : Type) := List (String × V)

def mapGet {V : Type} : MapL V → String → Option V
  | [], _ => none
  | (k', v') :: t, k => if k' = k then some v' else mapGet t k

def mapSet {V : Type} : MapL V → String → V → MapL V
  | [], k, v => [(k, v)]
  | (k', v') :: t, k, v => if k' = k then (k', v) :: t else (k', v') :: mapSet t k v

def mapValues {V : Type} (m : MapL V) : List V := m.map Prod.snd

/- ### storeConversations -/

def DEFAULT_MAX_CONTENT_LENGTH : Nat := 50 * 1024 * 1024

/-- The `limits` argument of `storeConversations` (only `MAX_CONTENT_LENGTH` is read). -/
structure StoreLimits where
  MAX_CONTENT_LENGTH : Option Nat
deriving DecidableEq

/-- `limits.MAX_CONTENT_LENGTH || DEFAULT_MAX_CONTENT_LENGTH` (JS `||`: a
present-but-zero value is falsy and also falls back to the default). -/
def effMax (limits : StoreLimits) : Nat :=
  match limits.MAX_CONTENT_LENGTH with
  | some n => if n = 0 then DEFAULT_MAX_CONTENT_LENGTH else n
  | none => DEFAULT_MAX_CONTENT_LENGTH

def truncMarker : String := "\n\n...[content truncated due to size limit]"

/-- Lines 109-114: truncate over-long flattened content and append the marker. -/
def truncateContent (maxLen : Nat) (content : String) : String :=
  if maxLen < jsLen content then jsSubstringTo content maxLen ++ truncMarker else content

/-- The conversation record built from one input conversation (lines 87-100). -/
def convRecordOf (c : Conversation) : ConvRecord :=
  ⟨c.id, c.title, c.create_time, c.update_time⟩

/-- JS `a > b` on two possibly-undefined numbers: any comparison involving
`undefined` is false. -/
def jsGT : Option Int → Option Int → Bool
  | some a, some b => b < a
  | _, _ => false

/-- Line 86: the batch-dedup test for conversations
(`conv.update_time > existingConv.update_time`). -/
def betterConv (c ex : ConvRecord) : Bool := jsGT c.update_time ex.update_time

/-- Line 122: the batch-dedup test for messages
(`(node.message.create_time || 0) > (existingMsg.create_time || 0)`). -/
def betterMsg (r ex : MsgRecord) : Bool := ex.create_time.getD 0 < r.create_time.getD 0

/-- The string key of the `messageMap`: `` `${convId}:${node.id}` `` (line 117). -/
def msgKeyOf (r : MsgRecord) : String := r.conversation_id ++ ":" ++ r.message_id

/-- Lines 85-101: keep the existing map entry unless the new record's
`update_time` is strictly greater (JS comparison semantics). -/
def dedupInsertConv (m : MapL ConvRecord) (r : ConvRecord) : MapL ConvRecord :=
  match mapGet m r.conversation_id with
  | some ex => if betterConv r ex then mapSet m r.conversation_id r else m
  | none => mapSet m r.conversation_id r

/-- Lines 118-141: keep the existing map entry unless the new record's
`create_time || 0` is strictly greater. -/
def dedupInsertMsg (m : MapL MsgRecord) (r : MsgRecord) : MapL MsgRecord :=
  match mapGet m (msgKeyOf r) with
  | some ex => if betterMsg r ex then mapSet m (msgKeyOf r) r else m
  | none => mapSet m (msgKeyOf r) r

/-- Lines 105-141, the per-node message candidate: present
`message.content.parts` are joined with newlines, truncated, and kept only if
the result trims to a non-empty string. -/
def candidateOf (maxLen : Nat) (convId : String) (node : MappingNode) : Option MsgRecord :=
  match node.message with
  | none => none
  | some msg =>
    match msg.content with
    | none => none
    | some mc =>
      match mc.parts with
      | none => none
      | some parts =>
        let content := truncateContent maxLen (joinNL parts)
        if jsTrim content ≠ "" then
          some ⟨convId, node.id, msg.role, content, msg.create_time, node.parent⟩
        else none

/-- Processing of one mapping node against the in-memory message map. -/
def msgStep (maxLen : Nat) (convId : String) (m : MapL MsgRecord) (node : MappingNode) :
    MapL MsgRecord :=
  match candidateOf maxLen convId node with
  | none => m
  | some r => dedupInsertMsg m r

/-- Processing of one conversation against the in-memory conversation map. -/
def convStep (m : MapL ConvRecord) (c : Conversation) : MapL ConvRecord :=
  dedupInsertConv m (convRecordOf c)

/-- The body of the `conversations.forEach` loop (lines 80-146): update the
conversation map, then fold this conversation's mapping nodes (if any) into
the message map. -/
def ingestStep (maxLen : Nat) (maps : MapL ConvRecord × MapL MsgRecord) (conv : Conversation) :
    MapL ConvRecord × MapL MsgRecord :=
  let cm := convStep maps.1 conv
  let mm :=
    match conv.mapping with
    | none => maps.2
    | some nodes => nodes.foldl (msgStep maxLen conv.id) maps.2
  (cm, mm)

def buildMaps (maxLen : Nat) (batch : List Conversation) :
    MapL ConvRecord × MapL MsgRecord :=
  batch.foldl (ingestStep maxLen) ([], [])

/-- `dbOperations.storeConversations` (lines 73-160) against one partition's
database: dedup the batch in memory, then `bulkPut` both record lists.
Returns the updated database and the `{conversations, messages}` counts. -/
def storeConversations (conversations : List Conversation) (limits : StoreLimits)
    (db : ChatDatabase) : ChatDatabase × Nat × Nat :=
  let maxLen := effMax limits
  let maps := buildMaps maxLen conversations
  let conversationRecords := mapValues maps.1
  let messageRecords := mapValues maps.2
  (⟨bulkPut db.conversations conversationRecords, bulkPut db.messages messageRecords⟩,
   conversationRecords.length, messageRecords.length)

/-- `dbOperations.getStats`: `(conversations.count(), messages.count())`. -/
def getStats (db : ChatDatabase) : Nat × Nat :=
  (db.conversations.rows.length, db.messages.rows.length)

/- ### globalSearch (lines 222-278) -/

/-- One element of `result.messageMatches`. -/
structure MsgMatch where
  message_id : String
  role : String
  context : String
  create_time : Option Int
  matchIndex : Nat
deriving DecidableEq

/-- One ranked search result. The source mutates `result.conversation` by
adding an `exportId` property before pushing; that property is modelled as the
separate `exportId` field here. -/
structure SearchResult where
  conversation : Nat × ConvRecord
  exportId : Option String
  titleMatch : Bool
  messageMatches : List MsgMatch
deriving DecidableEq

/-- The message matches collected for one conversation (lines 239-262):
messages of the conversation whose lowercased content contains the lowercased
query, each with a ±60-character context window around the first occurrence. -/
def msgMatchesFor (q lq : String) (db : ChatDatabase) (convId : String) : List MsgMatch :=
  ((db.messages.rows.filter
      (fun r => r.2.conversation_id == convId && jsIncludes (jsToLower r.2.content) lq)).filterMap
    (fun r =>
      match jsIndexOf (jsToLower r.2.content) lq with
      | none => none
      | some index =>
        let content := r.2.content
        let contextStart := index - 60
        let contextEnd := min (jsLen content) (index + jsLen q + 60)
        let context0 := jsSubstringRange content contextStart contextEnd
        let context1 := if 0 < contextStart then "..." ++ context0 else context0
        let context2 := if contextEnd < jsLen content then context1 ++ "..." else context1
        some ⟨r.2.message_id, r.2.role, context2, r.2.create_time, index⟩))

/-- The per-partition search loop body (lines 232-268): every conversation of
the partition whose title matches or that has at least one message match
becomes a result tagged with the export id. -/
def searchPartition (q lq : String) (eid : Option String) (db : ChatDatabase) :
    List SearchResult :=
  db.conversations.rows.filterMap (fun row =>
    let titleMatch := jsIncludes (jsToLower row.2.title) lq
    let mms := msgMatchesFor q lq db row.2.conversation_id
    if titleMatch || !mms.isEmpty then some ⟨row, eid, titleMatch, mms⟩ else none)

/-- `b.conversation.create_time || 0` of the ranking comparator. -/
def ct0r (r : SearchResult) : Int := (r.conversation.2.create_time).getD 0

/-- The comparator of lines 270-277 as a sort key compared lexicographically:
title matches first, then more message matches, then larger `create_time`. -/
def resKey (r : SearchResult) : Nat × Int × Int :=
  ((if r.titleMatch then 0 else 1), -(r.messageMatches.length : Int), -(ct0r r))

def keyLE (a b : Nat × Int × Int) : Bool :=
  decide (a.1 < b.1) ||
  (decide (a.1 = b.1) &&
    (decide (a.2.1 < b.2.1) || (decide (a.2.1 = b.2.1) && decide (a.2.2 ≤ b.2.2))))

def insertRes (x : SearchResult) : List SearchResult → List SearchResult
  | [] => [x]
  | h :: t => if keyLE (resKey h) (resKey x) then h :: insertRes x t else x :: h :: t

/-- The stable sort of line 270 (`results.sort(comparator)`): a stable
insertion sort by the comparator's total preorder, which is the unique output
of any stable sort under this comparator. -/
def sortResults (l : List SearchResult) : List SearchResult :=
  l.foldl (fun acc x => insertRes x acc) []

/-- `dbOperations.globalSearch(query, exportIds)` (lines 222-278).  The process
state mapping Dexie database names to their contents is passed as `store`;
`getDatabase` resolves an export id to the database named by `dbNameOf`. -/
def globalSearch (store : String → ChatDatabase) (q : String) (exportIds : List String) :
    List SearchResult :=
  if jsTrim q = "" then []
  else
    sortResults
      (((if 0 < exportIds.length then exportIds.map some else [none]).map
          (fun eid => searchPartition q (jsToLower q) eid (store (dbNameOf eid)))).flatten)

/- ### Archive Extractor (src/zip-handler.js) -/

def isAsciiAlphanum (c : Char) : Bool :=
  (('a' ≤ c && c ≤ 'z') || ('A' ≤ c && c ≤ 'Z') || ('0' ≤ c && c ≤ '9'))

/-- Character class of the strict allow-list regex: alphanumerics, dot,
underscore, hyphen, slash. -/
def strictChar (c : Char) : Bool :=
  isAsciiAlphanum c || c = '.' || c = '_' || c = '-' || c = '/'

/-- Character class of the permissive allow-list regex: the strict set plus
JS whitespace, comma, parentheses, square brackets. -/
def permissiveChar (c : Char) : Bool :=
  isAsciiAlphanum c || c = '.' || c = '_' || c = '-' || c = '/' ||
  isJsSpace c || c = ',' || c = '(' || c = ')' || c = '[' || c = ']'

/-- Leading Windows drive specifier `^[a-zA-Z]:[\\/]`. -/
def hasDriveRoot (path : String) : Bool :=
  match path.toList with
  | a :: b :: c :: _ =>
    (('a' ≤ a && a ≤ 'z') || ('A' ≤ a && a ≤ 'Z')) && b = ':' && (c = '/' || c = '\\')
  | _ => false

/-- `isSafePath(path, strict)` of `src/zip-handler.js` lines 19-46 (the
one-or-more regex anchors demand a non-empty path of allowed characters). -/
def isSafePath (path : String) (strict : Bool) : Bool :=
  if jsIncludes path ".." || jsIncludes path "//" || startsList ['/'] path.toList then false
  else if hasDriveRoot path then false
  else if strict then !path.toList.isEmpty && path.toList.all strictChar
  else !path.toList.isEmpty && path.toList.all permissiveChar

/-- Outcome of `JSON.parse` on an entry's decompressed text.  `JSON.parse` and
JSZip's decompression are external collaborators, so each entry carries its
parse outcome as data rather than re-implementing a JSON parser. -/
inductive ParseOutcome where
  | syntaxErr : ParseOutcome
  | nonArray : ParseOutcome
  | array : List Conversation → ParseOutcome
deriving DecidableEq

/-- One central-directory entry of the ZIP: its stored path, directory flag,
declared uncompressed size (`_data?.uncompressedSize || 0`), the length of its
decompressed text, and its parse outcome. -/
structure ZipEntry where
  path : String
  dir : Bool
  uncompressedSize : Nat
  textLen : Nat
  parsed : ParseOutcome
deriving DecidableEq

/-- The user-supplied ZIP file: its byte size and entries in scan
(`Object.entries(zipContents.files)`) order. -/
structure ZipFile where
  size : Nat
  entries : List ZipEntry
deriving DecidableEq

/-- The `limits` argument of `extractConversationsJson`. -/
structure ZipLimits where
  MAX_ZIP_SIZE : Nat
  MAX_JSON_TEXT_SIZE : Nat
  MAX_EXTRACTED_SIZE : Nat
deriving DecidableEq

/-- The typed errors thrown by `extractConversationsJson`, in source order:
there is no error for an unsafe path (such entries are skipped). -/
inductive ExtractError where
  | zipTooLarge : ExtractError
  | extractedTooLarge : ExtractError
  | entryTooLarge : ExtractError
  | payloadTooLarge : ExtractError
  | jsonTextTooLarge : ExtractError
  | malformedJson : ExtractError
  | notAnArray : ExtractError
  | payloadNotFound : ExtractError
deriving DecidableEq

instance {E A : Type} [DecidableEq E] [DecidableEq A] : DecidableEq (Except E A) :=
  fun x y =>
    match x, y with
    | .ok a, .ok b =>
      if h : a = b then isTrue (by rw [h]) else isFalse (by simp [h])
    | .ok _, .error _ => isFalse (by simp)
    | .error _, .ok _ => isFalse (by simp)
    | .error e, .error f =>
      if h : e = f then isTrue (by rw [h]) else isFalse (by simp [h])

/-- Lines 97-100: base-name test for the one required payload entry, after
normalizing backslashes to slashes.  `split('/').pop()` is the segment after
the last slash, computed here by a fold that resets at each slash. -/
def isTargetEntry (path : String) : Bool :=
  let normalizedPath := path.toList.map (fun c => if c = '\\' then '/' else c)
  let fileName := normalizedPath.foldl (fun acc c => if c = '/' then [] else acc ++ [c]) []
  String.mk fileName = "conversations.json" || String.mk normalizedPath = "conversations.json"

/-- The first-pass scan loop (lines 94-144): skip unsafe paths (warning only)
and directories, accumulate declared uncompressed sizes with the running-total
and per-entry checks, and remember the last safe entry matching the payload
name.  Returns the remembered entry, or the size error thrown. -/
def scanEntries (L : ZipLimits) :
    List ZipEntry → Nat → Option ZipEntry → Except ExtractError (Option ZipEntry)
  | [], _, jsonFile => .ok jsonFile
  | e :: rest, total, jsonFile =>
    let target := isTargetEntry e.path
    if !isSafePath e.path target then scanEntries L rest total jsonFile
    else if e.dir then scanEntries L rest total jsonFile
    else
      let total' := total + e.uncompressedSize
      if L.MAX_EXTRACTED_SIZE < total' then .error .extractedTooLarge
      else if L.MAX_JSON_TEXT_SIZE < e.uncompressedSize then .error .entryTooLarge
      else if target then
        if L.MAX_JSON_TEXT_SIZE < e.uncompressedSize then .error .payloadTooLarge
        else scanEntries L rest total' (some e)
      else scanEntries L rest total' jsonFile

/-- `extractConversationsJson(file, limits)` (lines 65-189), paired with the
ghost list of paths of the entries actually decompressed
(`jsonFile.async('string')` is the only decompression in the source). -/
def extractRun (file : ZipFile) (L : ZipLimits) :
    Except ExtractError (List Conversation) × List String :=
  if L.MAX_ZIP_SIZE < file.size then (.error .zipTooLarge, [])
  else if L.MAX_ZIP_SIZE < file.size then (.error .zipTooLarge, [])
  else
    match scanEntries L file.entries 0 none with
    | .error err => (.error err, [])
    | .ok none => (.error .payloadNotFound, [])
    | .ok (some entry) =>
      if L.MAX_JSON_TEXT_SIZE < entry.textLen then (.error .jsonTextTooLarge, [entry.path])
      else
        match entry.parsed with
        | .syntaxErr => (.error .malformedJson, [entry.path])
        | .nonArray => (.error .notAnArray, [entry.path])
        | .array conversations => (.ok conversations, [entry.path])

def extractConversationsJson (file : ZipFile) (L : ZipLimits) :
    Except ExtractError (List Conversation) :=
  (extractRun file L).1

/-- The paths of the entries `extractConversationsJson` decompresses. -/
def decompressedPaths (file : ZipFile) (L : ZipLimits) : List String :=
  (extractRun file L).2

/- ### Specification-side definitions (for the amended claims) -/

/-- An entry the scan loop actually processes: path-safe (under the validation
mode chosen for it) and not a directory. -/
def passesScan (e : ZipEntry) : Bool := isSafePath e.path (isTargetEntry e.path) && !e.dir

/-- The scanned entries matching the payload name, in scan order. -/
def safeTargets (entries : List ZipEntry) : List ZipEntry :=
  entries.filter (fun e => passesScan e && isTargetEntry e.path)

def sumSizes (entries : List ZipEntry) : Nat :=
  (entries.map ZipEntry.uncompressedSize).sum

/-- Modelled from the spec: the dedup rule "the record with the greater
timestamp wins; ties keep the first-seen", as a left fold that replaces the
survivor only on a strictly better newcomer. -/
def keptBy {α : Type} (better : α → α → Bool) (acc : Option α) (x : α) : Option α :=
  match acc with
  | none => some x
  | some a => if better x a then some x else some a

def leftmostMaxBy {α : Type} (better : α → α → Bool) (l : List α) : Option α :=
  l.foldl (keptBy better) none

/-- `create_time || 0` of a message record. -/
def ct0m (r : MsgRecord) : Int := r.create_time.getD 0

/-- `update_time || 0` of a conversation record (the claim's reading). -/
def ut0c (r : ConvRecord) : Int := r.update_time.getD 0

/-- Spec-side dedup test for conversations: strictly greater `update_time`,
an absent timestamp counting as 0 (the claim's reading). -/
def betterConvSpec (c ex : ConvRecord) : Bool := ut0c ex < ut0c c

/-- All message-record candidates a batch generates, in processing order. -/
def msgCandidates (maxLen : Nat) (batch : List Conversation) : List MsgRecord :=
  (batch.map (fun c => (c.mapping.getD []).filterMap (candidateOf maxLen c.id))).flatten

/-- The strict precedence order claimed for search results: title-match
before non-title-match, then strictly more message matches, then strictly
greater conversation `create_time || 0`. -/
def claimPrecedes (x y : SearchResult) : Prop :=
  (x.titleMatch = true ∧ y.titleMatch = false)
  ∨ (x.titleMatch = y.titleMatch ∧ y.messageMatches.length < x.messageMatches.length)
  ∨ (x.titleMatch = y.titleMatch ∧ x.messageMatches.length = y.messageMatches.length ∧
      ct0r y < ct0r x)

instance (x y : SearchResult) : Decidable (claimPrecedes x y) := by
  unfold claimPrecedes
  infer_instance

/-- The value of the scan loop's `jsonFile` variable after processing a list
of entries, given its value beforehand: the last safe matching entry wins. -/
def lastOr (l : List ZipEntry) (jf : Option ZipEntry) : Option ZipEntry :=
  match l.getLast? with
  | some e => some e
  | none => jf

/- ### Concrete instances used by the closed theorems and witnesses -/

def exLimits : StoreLimits := ⟨some 100⟩

def exConv1 : Conversation :=
  ⟨"c1", "t", some 1, some 2, some [⟨"m1", none, some ⟨"user", some ⟨some ["hello"]⟩, some 5⟩⟩]⟩

/-- The partition after one `storeConversations` call with `[exConv1]`. -/
def exDb1 : ChatDatabase := (storeConversations [exConv1] exLimits emptyDB).1

/-- The partition after a second, identical `storeConversations` call. -/
def exDb2 : ChatDatabase := (storeConversations [exConv1] exLimits exDb1).1

def exConvA : Conversation := ⟨"c", "A", none, none, none⟩

def exConvB : Conversation := ⟨"c", "B", none, some 100, none⟩

def exBatchW : List Conversation :=
  [⟨"c", "T1", some 1, some 100, some [⟨"m", none, some ⟨"user", some ⟨some ["a"]⟩, some 5⟩⟩]⟩,
   ⟨"c", "T2", some 2, some 200, some [⟨"m", none, some ⟨"user", some ⟨some ["b"]⟩, some 3⟩⟩]⟩]

def exRecW : MsgRecord := ⟨"c", "m", "user", "a", some 5, none⟩

def exRecCW : ConvRecord := ⟨"c", "T2", some 2, some 200⟩

def exLim5 : StoreLimits := ⟨some 5⟩

def exConv4 : Conversation :=
  ⟨"c1", "t", none, none, some [⟨"m1", none, some ⟨"user", some ⟨some ["abcdefgh"]⟩, some 5⟩⟩]⟩

def exLim3 : StoreLimits := ⟨some 3⟩

def exConv5 : Conversation :=
  ⟨"c1", "t", none, none, some [⟨"m1", none, some ⟨"user", some ⟨some ["      "]⟩, none⟩⟩]⟩

def exNodeNoMsg : MappingNode := ⟨"n", none, none⟩

def exNodeWs : MappingNode := ⟨"m", none, some ⟨"user", some ⟨some ["  "]⟩, none⟩⟩

def exZipLimits : ZipLimits := ⟨100, 100, 100⟩

def exZipMalformed : ZipFile := ⟨10, [⟨"conversations.json", false, 1, 1, .syntaxErr⟩]⟩

def exZipUnsafeTarget : ZipFile := ⟨10, [⟨"../conversations.json", false, 1, 1, .array []⟩]⟩

def exZipBombSkipped : ZipFile :=
  ⟨10, [⟨"../x", false, 1000, 0, .nonArray⟩, ⟨"conversations.json", false, 1, 1, .array []⟩]⟩

def exZipOkTarget : ZipEntry := ⟨"conversations.json", false, 20, 20, .array []⟩

def exZipOk : ZipFile := ⟨10, [⟨"chats/a.png", false, 50, 0, .nonArray⟩, exZipOkTarget]⟩

def exZipOverflow : ZipFile :=
  ⟨10, [⟨"a.png", false, 80, 0, .nonArray⟩, ⟨"b.png", false, 80, 0, .nonArray⟩,
        ⟨"conversations.json", false, 1, 1, .array []⟩]⟩

def exSearchDB : ChatDatabase :=
  ⟨bulkPut Table.empty
      [⟨"c1", "alpha hello", some 10, some 10⟩, ⟨"c2", "beta", some 20, some 20⟩,
       ⟨"c3", "gamma hello", some 5, some 5⟩],
    bulkPut Table.empty
      [⟨"c2", "m1", "user", "say hello there", some 1, none⟩,
       ⟨"c2", "m2", "assistant", "hello again", some 2, none⟩,
       ⟨"c2", "m3", "user", "hello third", some 3, none⟩,
       ⟨"c1", "m4", "user", "one hello", some 4, none⟩]⟩

def exStore : String → ChatDatabase := fun _ => exSearchDB

/- ### Helper lemmas: JS-Map model -/

theorem mapGet_mapSet {V : Type} (m : MapL V) (k : String) (v : V) (k' : String) :
    mapGet (mapSet m k v) k' = if k = k' then some v else mapGet m k' := by
  induction m with
  | nil => simp [mapSet, mapGet]
  | cons hd tl ih =>
    obtain ⟨a, w⟩ := hd
    by_cases h1 : a = k
    · subst h1
      by_cases h2 : a = k' <;> simp [mapSet, mapGet, h2]
    · by_cases h2 : a = k'
      · subst h2
        simp [mapSet, mapGet, h1, Ne.symm h1]
      · simp [mapSet, mapGet, h1, h2, ih]

theorem mem_values_mapSet {V : Type} (m : MapL V) (k : String) (v : V) (w : V)
    (h : w ∈ mapValues (mapSet m k v)) : w ∈ mapValues m ∨ w = v := by
  induction m with
  | nil => simp [mapSet, mapValues] at h; exact Or.inr h
  | cons hd tl ih =>
    obtain ⟨a, b⟩ := hd
    by_cases h1 : a = k
    · simp [mapSet, h1, mapValues] at h
      rcases h with h | h
      · exact Or.inr h
      · exact Or.inl (by simp [mapValues, h])
    · simp [mapSet, h1, mapValues] at h
      rcases h with h | h
      · exact Or.inl (by simp [mapValues, h])
      · rcases ih (by simpa [mapValues] using h) with h' | h'
        · exact Or.inl (by simp [mapValues] at h' ⊢; exact Or.inr h')
        · exact Or.inr h'

/- ### Helper lemmas: Dexie bulkPut -/

theorem bulkPut_rows_snd {α : Type} (recs : List α) (t : Table α) :
    (bulkPut t recs).rows.map Prod.snd = t.rows.map Prod.snd ++ recs := by
  induction recs generalizing t with
  | nil => simp [bulkPut]
  | cons r rest ih =>
    show (bulkPut ⟨t.nextId + 1, t.rows ++ [(t.nextId, r)]⟩ rest).rows.map Prod.snd = _
    rw [ih]
    simp

/- ### Helper lemmas: batch dedup as a left fold over candidates -/

theorem mapGet_dedupInsertMsg (m : MapL MsgRecord) (r : MsgRecord) (k : String) :
    mapGet (dedupInsertMsg m r) k =
      if msgKeyOf r = k then keptBy betterMsg (mapGet m k) r else mapGet m k := by
  unfold dedupInsertMsg
  by_cases hk : msgKeyOf r = k
  · subst hk
    cases hm : mapGet m (msgKeyOf r) with
    | none => simp [keptBy, mapGet_mapSet, hm]
    | some ex =>
      by_cases hb : betterMsg r ex <;> simp [keptBy, mapGet_mapSet, hm, hb]
  · cases hm : mapGet m (msgKeyOf r) with
    | none => simp [keptBy, mapGet_mapSet, hm, hk]
    | some ex =>
      by_cases hb : betterMsg r ex <;> simp [keptBy, mapGet_mapSet, hm, hb, hk]

theorem mapGet_dedupInsertConv (m : MapL ConvRecord) (r : ConvRecord) (k : String) :
    mapGet (dedupInsertConv m r) k =
      if r.conversation_id = k then keptBy betterConv (mapGet m k) r else mapGet m k := by
  unfold dedupInsertConv
  by_cases hk : r.conversation_id = k
  · subst hk
    cases hm : mapGet m r.conversation_id with
    | none => simp [keptBy, mapGet_mapSet, hm]
    | some ex =>
      by_cases hb : betterConv r ex <;> simp [keptBy, mapGet_mapSet, hm, hb]
  · cases hm : mapGet m r.conversation_id with
    | none => simp [keptBy, mapGet_mapSet, hm, hk]
    | some ex =>
      by_cases hb : betterConv r ex <;> simp [keptBy, mapGet_mapSet, hm, hb, hk]

theorem foldl_dedupInsertMsg (recs : List MsgRecord) (m : MapL MsgRecord) (k : String) :
    mapGet (recs.foldl dedupInsertMsg m) k =
      (recs.filter (fun r => msgKeyOf r == k)).foldl (keptBy betterMsg) (mapGet m k) := by
  induction recs generalizing m with
  | nil => simp
  | cons r rest ih =>
    by_cases hk : msgKeyOf r = k
    · simp only [List.foldl_cons, List.filter_cons, hk]
      rw [ih]
      simp [mapGet_dedupInsertMsg, hk]
    · simp only [List.foldl_cons, List.filter_cons]
      rw [ih]
      simp [mapGet_dedupInsertMsg, hk]

theorem foldl_dedupInsertConv (recs : List ConvRecord) (m : MapL ConvRecord) (k : String) :
    mapGet (recs.foldl dedupInsertConv m) k =
      (recs.filter (fun r => r.conversation_id == k)).foldl (keptBy betterConv) (mapGet m k) := by
  induction recs generalizing m with
  | nil => simp
  | cons r rest ih =>
    by_cases hk : r.conversation_id = k
    · simp only [List.foldl_cons, List.filter_cons, hk]
      rw [ih]
      simp [mapGet_dedupInsertConv, hk]
    · simp only [List.foldl_cons, List.filter_cons]
      rw [ih]
      simp [mapGet_dedupInsertConv, hk]

theorem msgfold_filterMap (maxLen : Nat) (cid : String) (nodes : List MappingNode)
    (m : MapL MsgRecord) :
    nodes.foldl (msgStep maxLen cid) m =
      (nodes.filterMap (candidateOf maxLen cid)).foldl dedupInsertMsg m := by
  induction nodes generalizing m with
  | nil => rfl
  | cons n rest ih =>
    simp only [List.foldl_cons, List.filterMap_cons]
    cases h : candidateOf maxLen cid n with
    | none => simp [msgStep, h, ih]
    | some r => simp [msgStep, h, ih]

theorem buildMaps_proj (maxLen : Nat) (batch : List Conversation) :
    ∀ (cm : MapL ConvRecord) (mm : MapL MsgRecord),
      (batch.foldl (ingestStep maxLen) (cm, mm)).1 = batch.foldl convStep cm ∧
      (batch.foldl (ingestStep maxLen) (cm, mm)).2 =
        batch.foldl (fun m c =>
          match c.mapping with
          | none => m
          | some nodes => nodes.foldl (msgStep maxLen c.id) m) mm := by
  induction batch with
  | nil => intro cm mm; exact ⟨rfl, rfl⟩
  | cons c rest ih =>
    intro cm mm
    simp only [List.foldl_cons]
    exact ih _ _

theorem buildMaps_fst (maxLen : Nat) (batch : List Conversation) :
    (buildMaps maxLen batch).1 = (batch.map convRecordOf).foldl dedupInsertConv [] := by
  unfold buildMaps
  rw [(buildMaps_proj maxLen batch [] []).1, List.foldl_map]
  rfl

theorem buildMaps_snd (maxLen : Nat) (batch : List Conversation) :
    (buildMaps maxLen batch).2 = (msgCandidates maxLen batch).foldl dedupInsertMsg [] := by
  unfold buildMaps msgCandidates
  rw [(buildMaps_proj maxLen batch [] []).2]
  generalize ([] : MapL MsgRecord) = mm
  induction batch generalizing mm with
  | nil => rfl
  | cons c rest ih =>
    simp only [List.foldl_cons, List.map_cons, List.flatten_cons, List.foldl_append]
    rw [← ih]
    cases hm : c.mapping with
    | none => simp [hm]
    | some nodes => simp [hm, msgfold_filterMap]

/- ### Helper lemmas: the fold that keeps the first-seen maximum -/

theorem foldl_keptBy_spec {α : Type} (t : α → Int) (better : α → α → Bool)
    (hb : ∀ x y, better x y = true ↔ t y < t x) :
    ∀ (l : List α) (a : α),
      ∃ r, l.foldl (keptBy better) (some a) = some r ∧
        (r = a ∨ r ∈ l) ∧ t a ≤ t r ∧ (∀ y ∈ l, t y ≤ t r) ∧
        ((a :: l).find? (fun y => t y == t r) = some r) := by
  intro l
  induction l with
  | nil =>
    intro a
    exact ⟨a, rfl, Or.inl rfl, le_refl _, by simp, by simp⟩
  | cons y ys ih =>
    intro a
    by_cases hy : t a < t y
    · have hcond : better y a = true := (hb y a).mpr hy
      have hstep : keptBy better (some a) y = some y := by simp [keptBy, hcond]
      obtain ⟨r, h1, h2, h3, h4, h5⟩ := ih y
      refine ⟨r, ?_, ?_, le_trans (le_of_lt hy) h3, ?_, ?_⟩
      · simpa [hstep] using h1
      · rcases h2 with h | h
        · exact Or.inr (by simp [h])
        · exact Or.inr (by simp [h])
      · intro z hz
        rcases List.mem_cons.mp hz with h | h
        · subst h; exact h3
        · exact h4 z h
      · have hlt : t a < t r := lt_of_lt_of_le hy h3
        have hne : (t a == t r) = false := by
          simp only [beq_eq_false_iff_ne, ne_eq]
          omega
        rw [List.find?_cons_of_neg _ (by simp [hne])]
        exact h5
    · have hcond : better y a = false := by
        rw [Bool.eq_false_iff]
        intro hc
        exact hy ((hb y a).mp hc)
      have hstep : keptBy better (some a) y = some a := by simp [keptBy, hcond]
      obtain ⟨r, h1, h2, h3, h4, h5⟩ := ih a
      have hya : t y ≤ t a := not_lt.mp hy
      refine ⟨r, by simpa [hstep] using h1, ?_, h3, ?_, ?_⟩
      · rcases h2 with h | h
        · exact Or.inl h
        · exact Or.inr (by simp [h])
      · intro z hz
        rcases List.mem_cons.mp hz with h | h
        · subst h; exact le_trans hya h3
        · exact h4 z h
      · by_cases he : t a = t r
        · have hfa : (t a == t r) = true := by simp [he]
          have hra : r = a := by
            rw [List.find?_cons_of_pos _ (by simp [hfa])] at h5
            exact (Option.some.injEq _ _ ▸ h5).symm
          subst hra
          rw [List.find?_cons_of_pos _ (by simp [hfa])]
        · have hfa : (t a == t r) = false := by
            simp only [beq_eq_false_iff_ne, ne_eq]
            exact he
          have h5' : ys.find? (fun z => t z == t r) = some r := by
            rw [List.find?_cons_of_neg _ (by simp [hfa])] at h5
            exact h5
          have hfy : (t y == t r) = false := by
            simp only [beq_eq_false_iff_ne, ne_eq]
            have := lt_of_le_of_ne h3 he
            omega
          rw [List.find?_cons_of_neg _ (by simp [hfa]),
              List.find?_cons_of_neg _ (by simp [hfy])]
          exact h5'

theorem betterMsg_iff (x y : MsgRecord) : betterMsg x y = true ↔ ct0m y < ct0m x := by
  simp [betterMsg, ct0m]

theorem betterConvSpec_iff (x y : ConvRecord) : betterConvSpec x y = true ↔ ut0c y < ut0c x := by
  simp [betterConvSpec]

theorem foldl_keptBy_conv_present :
    ∀ (l : List ConvRecord) (acc : Option ConvRecord),
      (∀ r ∈ l, r.update_time.isSome) →
      (∀ r, acc = some r → r.update_time.isSome) →
      l.foldl (keptBy betterConv) acc = l.foldl (keptBy betterConvSpec) acc := by
  intro l
  induction l with
  | nil => intro acc _ _; rfl
  | cons c cs ih =>
    intro acc hl hacc
    have hc : c.update_time.isSome := hl c (by simp)
    have hstep : keptBy betterConv acc c = keptBy betterConvSpec acc c := by
      cases acc with
      | none => rfl
      | some a =>
        have ha := hacc a rfl
        obtain ⟨x, hx⟩ := Option.isSome_iff_exists.mp hc
        obtain ⟨y, hy⟩ := Option.isSome_iff_exists.mp ha
        simp [keptBy, betterConv, betterConvSpec, jsGT, ut0c, hx, hy]
    rw [List.foldl_cons, List.foldl_cons, hstep]
    refine ih _ (fun r hr => hl r (by simp [hr])) ?_
    intro r hr
    cases acc with
    | none =>
      simp [keptBy] at hr
      subst hr
      exact hc
    | some a =>
      have ha := hacc a rfl
      by_cases hbc : betterConvSpec c a = true
      · simp [keptBy, hbc] at hr
        subst hr
        exact hc
      · simp [keptBy, hbc] at hr
        subst hr
        exact ha


/- ### Helper lemmas: the ranking comparator and the stable sort -/

theorem keyLE_iff (a b : Nat × Int × Int) :
    keyLE a b = true ↔
      (a.1 < b.1 ∨ (a.1 = b.1 ∧ (a.2.1 < b.2.1 ∨ (a.2.1 = b.2.1 ∧ a.2.2 ≤ b.2.2)))) := by
  simp [keyLE]

theorem keyLE_total (a b : Nat × Int × Int) : keyLE a b = true ∨ keyLE b a = true := by
  rw [keyLE_iff, keyLE_iff]
  omega

theorem keyLE_trans {a b c : Nat × Int × Int} (h1 : keyLE a b = true) (h2 : keyLE b c = true) :
    keyLE a c = true := by
  rw [keyLE_iff] at h1 h2 ⊢
  omega

theorem resKey_fst_eq {a b : SearchResult} (h : b.titleMatch = a.titleMatch) :
    (resKey b).1 = (resKey a).1 := by
  simp [resKey, h]

theorem keyLE_not_claimPrecedes (a b : SearchResult)
    (h : keyLE (resKey a) (resKey b) = true) : ¬ claimPrecedes b a := by
  intro hc
  rw [keyLE_iff] at h
  rcases hc with ⟨hb1, ha1⟩ | ⟨heq, hlt⟩ | ⟨heq, hcnt, hct⟩
  · simp only [resKey, hb1, ha1] at h
    simp at h
  · have hfst := resKey_fst_eq heq
    have hsnd : (resKey a).2.1 = -(a.messageMatches.length : Int) := rfl
    have hsnd' : (resKey b).2.1 = -(b.messageMatches.length : Int) := rfl
    rw [hsnd, hsnd'] at h
    omega
  · have hfst := resKey_fst_eq heq
    have hsnd : (resKey a).2.1 = -(a.messageMatches.length : Int) := rfl
    have hsnd' : (resKey b).2.1 = -(b.messageMatches.length : Int) := rfl
    have hthd : (resKey a).2.2 = -(ct0r a) := rfl
    have hthd' : (resKey b).2.2 = -(ct0r b) := rfl
    rw [hsnd, hsnd', hthd, hthd'] at h
    omega

theorem mem_insertRes (x : SearchResult) (l : List SearchResult) (y : SearchResult) :
    y ∈ insertRes x l ↔ y = x ∨ y ∈ l := by
  induction l with
  | nil => simp [insertRes]
  | cons h t ih =>
    by_cases hc : keyLE (resKey h) (resKey x) = true
    · simp only [insertRes, hc, if_true, List.mem_cons, ih]
      tauto
    · have hc' : keyLE (resKey h) (resKey x) = false := Bool.eq_false_iff.mpr hc
      simp only [insertRes, hc', Bool.false_eq_true, if_false, List.mem_cons]

theorem pairwise_insertRes (x : SearchResult) (l : List SearchResult)
    (hl : l.Pairwise (fun a b => keyLE (resKey a) (resKey b) = true)) :
    (insertRes x l).Pairwise (fun a b => keyLE (resKey a) (resKey b) = true) := by
  induction l with
  | nil => simp [insertRes]
  | cons h t ih =>
    rcases List.pairwise_cons.mp hl with ⟨hh, ht⟩
    by_cases hc : keyLE (resKey h) (resKey x) = true
    · simp only [insertRes, hc, if_true]
      refine List.pairwise_cons.mpr ⟨?_, ih ht⟩
      intro y hy
      rcases (mem_insertRes x t y).mp hy with rfl | hy'
      · exact hc
      · exact hh y hy'
    · have hxh : keyLE (resKey x) (resKey h) = true := (keyLE_total _ _).resolve_left hc
      have hc' : keyLE (resKey h) (resKey x) = false := Bool.eq_false_iff.mpr hc
      simp only [insertRes, hc', Bool.false_eq_true, if_false]
      refine List.pairwise_cons.mpr ⟨?_, hl⟩
      intro y hy
      rcases List.mem_cons.mp hy with rfl | hy'
      · exact hxh
      · exact keyLE_trans hxh (hh y hy')

theorem pairwise_sortResults_aux (l acc : List SearchResult)
    (hacc : acc.Pairwise (fun a b => keyLE (resKey a) (resKey b) = true)) :
    (l.foldl (fun acc x => insertRes x acc) acc).Pairwise
      (fun a b => keyLE (resKey a) (resKey b) = true) := by
  induction l generalizing acc with
  | nil => exact hacc
  | cons x t ih => exact ih _ (pairwise_insertRes x acc hacc)

theorem pairwise_sortResults (l : List SearchResult) :
    (sortResults l).Pairwise (fun a b => keyLE (resKey a) (resKey b) = true) :=
  pairwise_sortResults_aux l [] List.Pairwise.nil

theorem length_insertRes (x : SearchResult) (l : List SearchResult) :
    (insertRes x l).length = l.length + 1 := by
  induction l with
  | nil => rfl
  | cons h t ih =>
    by_cases hc : keyLE (resKey h) (resKey x) = true
    · simp [insertRes, hc, ih]
    · have hc' : keyLE (resKey h) (resKey x) = false := Bool.eq_false_iff.mpr hc
      simp [insertRes, hc']

theorem length_sortResults_aux (l acc : List SearchResult) :
    (l.foldl (fun acc x => insertRes x acc) acc).length = acc.length + l.length := by
  induction l generalizing acc with
  | nil => rfl
  | cons x t ih =>
    rw [List.foldl_cons, ih, length_insertRes, List.length_cons]
    omega

theorem length_sortResults (l : List SearchResult) : (sortResults l).length = l.length := by
  unfold sortResults
  rw [length_sortResults_aux]
  simp

/- ### Helper lemmas: the extraction scan loop -/

theorem sumSizes_cons (e : ZipEntry) (l : List ZipEntry) :
    sumSizes (e :: l) = e.uncompressedSize + sumSizes l := by
  simp [sumSizes]

theorem lastOr_cons (e : ZipEntry) (l : List ZipEntry) (jf : Option ZipEntry) :
    lastOr (e :: l) jf = lastOr l (some e) := by
  cases l with
  | nil => rfl
  | cons b bs =>
    have hs : (b :: bs).getLast?.isSome := by
      rw [List.getLast?_isSome]
      simp
    obtain ⟨x, hx⟩ := Option.isSome_iff_exists.mp hs
    simp [lastOr, List.getLast?_cons_cons, hx]

theorem safeTargets_cons_of_skip (e : ZipEntry) (rest : List ZipEntry)
    (h : passesScan e = false) : safeTargets (e :: rest) = safeTargets rest := by
  simp [safeTargets, List.filter_cons, h]

theorem scanEntries_cons_skipped (L : ZipLimits) (e : ZipEntry) (rest : List ZipEntry)
    (total : Nat) (jf : Option ZipEntry)
    (h : isSafePath e.path (isTargetEntry e.path) = false) :
    scanEntries L (e :: rest) total jf = scanEntries L rest total jf := by
  simp [scanEntries, h]

theorem scanEntries_cons_dir (L : ZipLimits) (e : ZipEntry) (rest : List ZipEntry)
    (total : Nat) (jf : Option ZipEntry)
    (h1 : isSafePath e.path (isTargetEntry e.path) = true) (h2 : e.dir = true) :
    scanEntries L (e :: rest) total jf = scanEntries L rest total jf := by
  simp [scanEntries, h1, h2]

theorem scanEntries_cons_over (L : ZipLimits) (e : ZipEntry) (rest : List ZipEntry)
    (total : Nat) (jf : Option ZipEntry)
    (h1 : isSafePath e.path (isTargetEntry e.path) = true) (h2 : e.dir = false)
    (h3 : L.MAX_EXTRACTED_SIZE < total + e.uncompressedSize) :
    scanEntries L (e :: rest) total jf = .error .extractedTooLarge := by
  simp [scanEntries, h1, h2, h3]

theorem scanEntries_cons_target (L : ZipLimits) (e : ZipEntry) (rest : List ZipEntry)
    (total : Nat) (jf : Option ZipEntry)
    (h5 : isTargetEntry e.path = true) (h1 : isSafePath e.path true = true) (h2 : e.dir = false)
    (h3 : ¬ L.MAX_EXTRACTED_SIZE < total + e.uncompressedSize)
    (h4 : ¬ L.MAX_JSON_TEXT_SIZE < e.uncompressedSize) :
    scanEntries L (e :: rest) total jf =
      scanEntries L rest (total + e.uncompressedSize) (some e) := by
  simp [scanEntries, h5, h1, h2, h3, h4]

theorem scanEntries_cons_nontarget (L : ZipLimits) (e : ZipEntry) (rest : List ZipEntry)
    (total : Nat) (jf : Option ZipEntry)
    (h5 : isTargetEntry e.path = false) (h1 : isSafePath e.path false = true) (h2 : e.dir = false)
    (h3 : ¬ L.MAX_EXTRACTED_SIZE < total + e.uncompressedSize)
    (h4 : ¬ L.MAX_JSON_TEXT_SIZE < e.uncompressedSize) :
    scanEntries L (e :: rest) total jf =
      scanEntries L rest (total + e.uncompressedSize) jf := by
  simp [scanEntries, h5, h1, h2, h3, h4]

theorem scanEntries_ok (L : ZipLimits) :
    ∀ (es : List ZipEntry) (total : Nat) (jf : Option ZipEntry),
      total + sumSizes (es.filter passesScan) ≤ L.MAX_EXTRACTED_SIZE →
      (∀ e ∈ es.filter passesScan, e.uncompressedSize ≤ L.MAX_JSON_TEXT_SIZE) →
      scanEntries L es total jf = .ok (lastOr (safeTargets es) jf) := by
  intro es
  induction es with
  | nil => intro total jf _ _; rfl
  | cons e rest ih =>
    intro total jf h2 h3
    by_cases hsafe : isSafePath e.path (isTargetEntry e.path) = true
    · by_cases hdir : e.dir = true
      · have hps : passesScan e = false := by simp [passesScan, hdir]
        have hfe : (e :: rest).filter passesScan = rest.filter passesScan := by
          simp [List.filter_cons, hps]
        rw [hfe] at h2 h3
        rw [safeTargets_cons_of_skip e rest hps, scanEntries_cons_dir L e rest total jf hsafe hdir]
        exact ih total jf h2 h3
      · have hdir' : e.dir = false := Bool.eq_false_iff.mpr hdir
        have hps : passesScan e = true := by simp [passesScan, hsafe, hdir']
        have hfe : (e :: rest).filter passesScan = e :: rest.filter passesScan := by
          simp [List.filter_cons, hps]
        rw [hfe] at h2 h3
        rw [sumSizes_cons] at h2
        have hsz : e.uncompressedSize ≤ L.MAX_JSON_TEXT_SIZE := h3 e (by simp)
        have hnot1 : ¬ L.MAX_EXTRACTED_SIZE < total + e.uncompressedSize := by omega
        have hnot2 : ¬ L.MAX_JSON_TEXT_SIZE < e.uncompressedSize := by omega
        have h3' : ∀ x ∈ rest.filter passesScan, x.uncompressedSize ≤ L.MAX_JSON_TEXT_SIZE :=
          fun x hx => h3 x (by simp [hx])
        by_cases htgt : isTargetEntry e.path = true
        · have hsafeT : isSafePath e.path true = true := by rwa [htgt] at hsafe
          have hst : safeTargets (e :: rest) = e :: safeTargets rest := by
            simp [safeTargets, List.filter_cons, hps, htgt]
          rw [hst, lastOr_cons,
            scanEntries_cons_target L e rest total jf htgt hsafeT hdir' hnot1 hnot2]
          exact ih (total + e.uncompressedSize) (some e) (by omega) h3'
        · have htgt' : isTargetEntry e.path = false := Bool.eq_false_iff.mpr htgt
          have hsafeF : isSafePath e.path false = true := by rwa [htgt'] at hsafe
          have hst : safeTargets (e :: rest) = safeTargets rest := by
            simp [safeTargets, List.filter_cons, hps, htgt']
          rw [hst, scanEntries_cons_nontarget L e rest total jf htgt' hsafeF hdir' hnot1 hnot2]
          exact ih (total + e.uncompressedSize) jf (by omega) h3'
    · have hsafe' : isSafePath e.path (isTargetEntry e.path) = false := Bool.eq_false_iff.mpr hsafe
      have hps : passesScan e = false := by simp [passesScan, hsafe']
      have hfe : (e :: rest).filter passesScan = rest.filter passesScan := by
        simp [List.filter_cons, hps]
      rw [hfe] at h2 h3
      rw [safeTargets_cons_of_skip e rest hps, scanEntries_cons_skipped L e rest total jf hsafe']
      exact ih total jf h2 h3

theorem scanEntries_cons_entry_big (L : ZipLimits) (e : ZipEntry) (rest : List ZipEntry)
    (total : Nat) (jf : Option ZipEntry)
    (h1 : isSafePath e.path (isTargetEntry e.path) = true) (h2 : e.dir = false)
    (h3 : ¬ L.MAX_EXTRACTED_SIZE < total + e.uncompressedSize)
    (h4 : L.MAX_JSON_TEXT_SIZE < e.uncompressedSize) :
    scanEntries L (e :: rest) total jf = .error .entryTooLarge := by
  simp [scanEntries, h1, h2, h3, h4]

theorem scanEntries_some_safe (L : ZipLimits) :
    ∀ (es : List ZipEntry) (total : Nat) (jf : Option ZipEntry) (e : ZipEntry),
      scanEntries L es total jf = .ok (some e) →
      (isSafePath e.path true = true ∧ isTargetEntry e.path = true) ∨ jf = some e := by
  intro es
  induction es with
  | nil =>
    intro total jf e h
    right
    simpa [scanEntries] using h
  | cons hd rest ih =>
    intro total jf e h
    by_cases hsafe : isSafePath hd.path (isTargetEntry hd.path) = true
    · by_cases hdir : hd.dir = true
      · rw [scanEntries_cons_dir L hd rest total jf hsafe hdir] at h
        exact ih _ _ _ h
      · have hdir' : hd.dir = false := Bool.eq_false_iff.mpr hdir
        by_cases hover : L.MAX_EXTRACTED_SIZE < total + hd.uncompressedSize
        · rw [scanEntries_cons_over L hd rest total jf hsafe hdir' hover] at h
          simp at h
        · by_cases hbig : L.MAX_JSON_TEXT_SIZE < hd.uncompressedSize
          · rw [scanEntries_cons_entry_big L hd rest total jf hsafe hdir' hover hbig] at h
            simp at h
          · by_cases htgt : isTargetEntry hd.path = true
            · have hsafeT : isSafePath hd.path true = true := by rwa [htgt] at hsafe
              rw [scanEntries_cons_target L hd rest total jf htgt hsafeT hdir' hover hbig] at h
              rcases ih _ _ _ h with hok | hjf
              · exact Or.inl hok
              · have he : hd = e := by simpa using hjf
                subst he
                exact Or.inl ⟨hsafeT, htgt⟩
            · have htgt' : isTargetEntry hd.path = false := Bool.eq_false_iff.mpr htgt
              have hsafeF : isSafePath hd.path false = true := by rwa [htgt'] at hsafe
              rw [scanEntries_cons_nontarget L hd rest total jf htgt' hsafeF hdir' hover hbig] at h
              exact ih _ _ _ h
    · have hsafe' : isSafePath hd.path (isTargetEntry hd.path) = false := Bool.eq_false_iff.mpr hsafe
      rw [scanEntries_cons_skipped L hd rest total jf hsafe'] at h
      exact ih _ _ _ h

theorem scanEntries_err (L : ZipLimits) :
    ∀ (es : List ZipEntry) (total : Nat) (jf : Option ZipEntry),
      (∀ e ∈ es.filter passesScan, e.uncompressedSize ≤ L.MAX_JSON_TEXT_SIZE) →
      total ≤ L.MAX_EXTRACTED_SIZE →
      L.MAX_EXTRACTED_SIZE < total + sumSizes (es.filter passesScan) →
      scanEntries L es total jf = .error .extractedTooLarge := by
  intro es
  induction es with
  | nil =>
    intro total jf _ hle hlt
    exfalso
    simp [sumSizes] at hlt
    omega
  | cons e rest ih =>
    intro total jf h1 hle hlt
    by_cases hsafe : isSafePath e.path (isTargetEntry e.path) = true
    · by_cases hdir : e.dir = true
      · have hps : passesScan e = false := by simp [passesScan, hdir]
        have hfe : (e :: rest).filter passesScan = rest.filter passesScan := by
          simp [List.filter_cons, hps]
        rw [hfe] at h1 hlt
        rw [scanEntries_cons_dir L e rest total jf hsafe hdir]
        exact ih total jf h1 hle hlt
      · have hdir' : e.dir = false := Bool.eq_false_iff.mpr hdir
        have hps : passesScan e = true := by simp [passesScan, hsafe, hdir']
        have hfe : (e :: rest).filter passesScan = e :: rest.filter passesScan := by
          simp [List.filter_cons, hps]
        rw [hfe] at h1 hlt
        rw [sumSizes_cons] at hlt
        have hsz : e.uncompressedSize ≤ L.MAX_JSON_TEXT_SIZE := h1 e (by simp)
        have h1' : ∀ x ∈ rest.filter passesScan, x.uncompressedSize ≤ L.MAX_JSON_TEXT_SIZE :=
          fun x hx => h1 x (by simp [hx])
        by_cases hover : L.MAX_EXTRACTED_SIZE < total + e.uncompressedSize
        · exact scanEntries_cons_over L e rest total jf hsafe hdir' hover
        · have hbig : ¬ L.MAX_JSON_TEXT_SIZE < e.uncompressedSize := by omega
          by_cases htgt : isTargetEntry e.path = true
          · have hsafeT : isSafePath e.path true = true := by rwa [htgt] at hsafe
            rw [scanEntries_cons_target L e rest total jf htgt hsafeT hdir' hover hbig]
            exact ih _ _ h1' (by omega) (by omega)
          · have htgt' : isTargetEntry e.path = false := Bool.eq_false_iff.mpr htgt
            have hsafeF : isSafePath e.path false = true := by rwa [htgt'] at hsafe
            rw [scanEntries_cons_nontarget L e rest total jf htgt' hsafeF hdir' hover hbig]
            exact ih _ _ h1' (by omega) (by omega)
    · have hsafe' : isSafePath e.path (isTargetEntry e.path) = false := Bool.eq_false_iff.mpr hsafe
      have hps : passesScan e = false := by simp [passesScan, hsafe']
      have hfe : (e :: rest).filter passesScan = rest.filter passesScan := by
        simp [List.filter_cons, hps]
      rw [hfe] at h1 hlt
      rw [scanEntries_cons_skipped L e rest total jf hsafe']
      exact ih total jf h1 hle hlt

/- ### Helper lemmas: content truncation bounds -/

theorem jsLen_mk (l : List Char) : jsLen (String.mk l) = l.length := rfl

theorem jsLen_append (a b : String) : jsLen (a ++ b) = jsLen a + jsLen b := by
  obtain ⟨la⟩ := a
  obtain ⟨lb⟩ := b
  show (la ++ lb).length = la.length + lb.length
  exact List.length_append la lb

theorem jsLen_jsSubstringTo (s : String) (n : Nat) :
    jsLen (jsSubstringTo s n) = min n (jsLen s) := by
  simp [jsSubstringTo, jsLen_mk, List.length_take, jsLen]

theorem truncateContent_of_long (maxLen : Nat) (s : String) (h : maxLen < jsLen s) :
    truncateContent maxLen s = jsSubstringTo s maxLen ++ truncMarker := by
  simp [truncateContent, h]

theorem jsLen_truncateContent_of_long (maxLen : Nat) (s : String) (h : maxLen < jsLen s) :
    jsLen (truncateContent maxLen s) = maxLen + jsLen truncMarker := by
  rw [truncateContent_of_long maxLen s h, jsLen_append, jsLen_jsSubstringTo]
  omega

theorem jsLen_truncateContent_le (maxLen : Nat) (s : String) :
    jsLen (truncateContent maxLen s) ≤ maxLen + jsLen truncMarker := by
  by_cases h : maxLen < jsLen s
  · rw [jsLen_truncateContent_of_long maxLen s h]
  · have : truncateContent maxLen s = s := by simp [truncateContent, h]
    rw [this]
    omega

theorem candidateOf_content_bound (maxLen : Nat) (cid : String) (node : MappingNode)
    (r : MsgRecord) (h : candidateOf maxLen cid node = some r) :
    jsLen r.content ≤ maxLen + jsLen truncMarker := by
  cases hm : node.message with
  | none => simp [candidateOf, hm] at h
  | some msg =>
    cases hc : msg.content with
    | none => simp [candidateOf, hm, hc] at h
    | some mc =>
      cases hp : mc.parts with
      | none => simp [candidateOf, hm, hc, hp] at h
      | some parts =>
        simp only [candidateOf, hm, hc, hp] at h
        split_ifs at h with ht
        · have hr : r.content = truncateContent maxLen (joinNL parts) := by
            cases h
            rfl
          rw [hr]
          exact jsLen_truncateContent_le _ _

theorem mem_values_dedupInsertMsg (m : MapL MsgRecord) (r : MsgRecord) (w : MsgRecord)
    (h : w ∈ mapValues (dedupInsertMsg m r)) : w ∈ mapValues m ∨ w = r := by
  unfold dedupInsertMsg at h
  split at h
  · split_ifs at h
    · exact mem_values_mapSet m _ r w h
    · exact Or.inl h
  · exact mem_values_mapSet m _ r w h

theorem foldl_dedupInsertMsg_values_bound (B : Nat) :
    ∀ (recs : List MsgRecord) (m : MapL MsgRecord),
      (∀ r ∈ recs, jsLen r.content ≤ B) →
      (∀ w ∈ mapValues m, jsLen w.content ≤ B) →
      ∀ w ∈ mapValues (recs.foldl dedupInsertMsg m), jsLen w.content ≤ B := by
  intro recs
  induction recs with
  | nil => intro m _ hm; exact hm
  | cons r rest ih =>
    intro m hr hm
    refine ih _ (fun x hx => hr x (by simp [hx])) ?_
    intro w hw
    rcases mem_values_dedupInsertMsg m r w hw with h | h
    · exact hm w h
    · subst h
      exact hr w (by simp)

theorem msgCandidates_content_bound (maxLen : Nat) (batch : List Conversation) :
    ∀ r ∈ msgCandidates maxLen batch, jsLen r.content ≤ maxLen + jsLen truncMarker := by
  intro r hr
  unfold msgCandidates at hr
  rw [List.mem_flatten] at hr
  obtain ⟨l, hl, hrl⟩ := hr
  rw [List.mem_map] at hl
  obtain ⟨c, _, hcl⟩ := hl
  subst hcl
  rw [List.mem_filterMap] at hrl
  obtain ⟨node, _, hcand⟩ := hrl
  exact candidateOf_content_bound maxLen c.id node r hcand

theorem msgMap_values_bound (maxLen : Nat) (batch : List Conversation) :
    ∀ w ∈ mapValues (buildMaps maxLen batch).2,
      jsLen w.content ≤ maxLen + jsLen truncMarker := by
  rw [buildMaps_snd]
  exact foldl_dedupInsertMsg_values_bound _ (msgCandidates maxLen batch) []
    (msgCandidates_content_bound maxLen batch) (by simp [mapValues])

/- ### Helper lemmas: batch dedup characterization -/

theorem msgMap_lookup_char (maxLen : Nat) (batch : List Conversation) (k : String) :
    mapGet (buildMaps maxLen batch).2 k =
      leftmostMaxBy betterMsg
        ((msgCandidates maxLen batch).filter (fun r => msgKeyOf r == k)) := by
  rw [buildMaps_snd, foldl_dedupInsertMsg]
  rfl

theorem convMap_lookup_char (maxLen : Nat) (batch : List Conversation) (k : String) :
    mapGet (buildMaps maxLen batch).1 k =
      ((batch.map convRecordOf).filter (fun r => r.conversation_id == k)).foldl
        (keptBy betterConv) none := by
  rw [buildMaps_fst, foldl_dedupInsertConv]
  rfl

theorem leftmostMaxBy_char {α : Type} (t : α → Int) (better : α → α → Bool)
    (hb : ∀ x y, better x y = true ↔ t y < t x) (l : List α) (m : α)
    (h : leftmostMaxBy better l = some m) :
    m ∈ l ∧ (∀ y ∈ l, t y ≤ t m) ∧ l.find? (fun y => t y == t m) = some m := by
  cases l with
  | nil => simp [leftmostMaxBy] at h
  | cons x xs =>
    unfold leftmostMaxBy at h
    rw [List.foldl_cons] at h
    have hx : keptBy better none x = some x := rfl
    rw [hx] at h
    obtain ⟨r, h1, h2, h3, h4, h5⟩ := foldl_keptBy_spec t better hb xs x
    rw [h1] at h
    injection h with h
    subst h
    refine ⟨?_, ?_, h5⟩
    · rcases h2 with h | h
      · simp [h]
      · simp [h]
    · intro y hy
      rcases List.mem_cons.mp hy with h | h
      · subst h; exact h3
      · exact h4 y h

theorem foldl_keptBy_conv_of_present (l : List ConvRecord)
    (hl : ∀ r ∈ l, r.update_time.isSome) :
    l.foldl (keptBy betterConv) none = l.foldl (keptBy betterConvSpec) none := by
  cases l with
  | nil => rfl
  | cons x xs =>
    rw [List.foldl_cons, List.foldl_cons]
    have hx1 : keptBy betterConv none x = some x := rfl
    have hx2 : keptBy betterConvSpec none x = some x := rfl
    rw [hx1, hx2]
    refine foldl_keptBy_conv_present xs (some x) (fun r hr => hl r (by simp [hr])) ?_
    intro r hr
    have hxr : x = r := by injection hr
    subst hxr
    exact hl x (by simp)

/- ### The persisted record lists of a store call against a fresh partition -/

theorem store_messages_rows (limits : StoreLimits) (batch : List Conversation) :
    (storeConversations batch limits emptyDB).1.messages.rows.map Prod.snd =
      mapValues (buildMaps (effMax limits) batch).2 := by
  simp only [storeConversations]
  rw [bulkPut_rows_snd]
  simp [emptyDB, Table.empty]

theorem store_conversations_rows (limits : StoreLimits) (batch : List Conversation) :
    (storeConversations batch limits emptyDB).1.conversations.rows.map Prod.snd =
      mapValues (buildMaps (effMax limits) batch).1 := by
  simp only [storeConversations]
  rw [bulkPut_rows_snd]
  simp [emptyDB, Table.empty]

/- ### Claim theorems -/

/-- C1: the claim says a second `storeConversations` call with the same batch
against the same partition leaves the persisted record set unchanged, so
`stats()` after the second call equals `stats()` after the first.  Evaluating
the code refutes this: the schema's primary key is the auto-incremented `id`,
the records carry no `id`, so `bulkPut` always inserts and every record is
duplicated; stats go from (1, 1) to (2, 2). -/
theorem C1_store_twice_changes_stats :
    getStats exDb1 = (1, 1) ∧ getStats exDb2 = (2, 2) ∧
    ¬ getStats exDb2 = getStats exDb1 := by decide

/-- C2: the claim says that after any sequence of `storeConversations` calls
no two persisted conversation records share a `conversation_id` and no two
persisted message records share a `(conversation_id, message_id)` pair.
After two identical calls the partition holds two conversation rows with id
"c1" and two message rows keyed ("c1", "m1"). -/
theorem C2_duplicate_identities_after_reingest :
    exDb2.conversations.rows.map (fun p => p.2.conversation_id) = ["c1", "c1"] ∧
    exDb2.messages.rows.map (fun p => (p.2.conversation_id, p.2.message_id)) =
      [("c1", "m1"), ("c1", "m1")] := by decide

/-- C3 counterexample: the claim treats an absent conversation `update_time`
as 0, so with records A (update_time absent) and B (update_time 100) sharing
one id it predicts B is persisted; the code compares with JS `>`, where any
comparison against `undefined` is false, so A (the first-seen) is persisted. -/
theorem C3_counterexample :
    (storeConversations [exConvA, exConvB] exLimits emptyDB).1.conversations.rows.map
        Prod.snd = [⟨"c", "A", none, none⟩] ∧
    exConvA.update_time = none ∧ exConvB.update_time = some 100 ∧
    (exConvA.update_time.getD 0 < exConvB.update_time.getD 0) := by decide

/-- C3 amended: within one batch, for messages the persisted record for a key
is a candidate with that key, no candidate with that key has a strictly
greater `create_time || 0`, and it is the first candidate attaining that
maximum (ties keep the first-seen) — exactly the claim.  For conversations
the same holds only when every record's `update_time` is present; a
comparison involving an absent `update_time` never replaces the survivor
(see the counterexample).  The first two conjuncts identify the persisted
rows of a fresh partition with the dedup maps' values. -/
theorem C3_dedup_amended (limits : StoreLimits) (batch : List Conversation) (k : String) :
    ((storeConversations batch limits emptyDB).1.messages.rows.map Prod.snd =
        mapValues (buildMaps (effMax limits) batch).2) ∧
    ((storeConversations batch limits emptyDB).1.conversations.rows.map Prod.snd =
        mapValues (buildMaps (effMax limits) batch).1) ∧
    (∀ m, mapGet (buildMaps (effMax limits) batch).2 k = some m →
      m ∈ (msgCandidates (effMax limits) batch).filter (fun r => msgKeyOf r == k) ∧
      (∀ y ∈ (msgCandidates (effMax limits) batch).filter (fun r => msgKeyOf r == k),
        ct0m y ≤ ct0m m) ∧
      ((msgCandidates (effMax limits) batch).filter (fun r => msgKeyOf r == k)).find?
        (fun y => ct0m y == ct0m m) = some m) ∧
    ((∀ c ∈ batch, c.update_time.isSome) →
      ∀ r, mapGet (buildMaps (effMax limits) batch).1 k = some r →
        r ∈ (batch.map convRecordOf).filter (fun y => y.conversation_id == k) ∧
        (∀ y ∈ (batch.map convRecordOf).filter (fun y => y.conversation_id == k),
          ut0c y ≤ ut0c r) ∧
        ((batch.map convRecordOf).filter (fun y => y.conversation_id == k)).find?
          (fun y => ut0c y == ut0c r) = some r) := by
  refine ⟨store_messages_rows limits batch, store_conversations_rows limits batch, ?_, ?_⟩
  · intro m hm
    rw [msgMap_lookup_char] at hm
    exact leftmostMaxBy_char ct0m betterMsg betterMsg_iff _ m hm
  · intro hpres r hr
    rw [convMap_lookup_char] at hr
    rw [foldl_keptBy_conv_of_present] at hr
    · exact leftmostMaxBy_char ut0c betterConvSpec betterConvSpec_iff _ r hr
    · intro y hy
      rw [List.mem_filter] at hy
      obtain ⟨hy1, _⟩ := hy
      rw [List.mem_map] at hy1
      obtain ⟨c, hc, hcy⟩ := hy1
      subst hcy
      exact hpres c hc

/-- C3 amended, witnessed on a batch with a duplicated conversation id and a
duplicated message key, all timestamps present. -/
theorem C3_dedup_amended_witness :
    mapGet (buildMaps (effMax exLimits) exBatchW).2 "c:m" = some exRecW ∧
    exRecW ∈ (msgCandidates (effMax exLimits) exBatchW).filter
      (fun r => msgKeyOf r == "c:m") ∧
    (∀ c ∈ exBatchW, c.update_time.isSome) ∧
    mapGet (buildMaps (effMax exLimits) exBatchW).1 "c" = some exRecCW ∧
    exRecCW ∈ (exBatchW.map convRecordOf).filter (fun y => y.conversation_id == "c") :=
  ⟨by decide,
   ((C3_dedup_amended exLimits exBatchW "c:m").2.2.1 exRecW (by decide)).1,
   by decide,
   by decide,
   ((C3_dedup_amended exLimits exBatchW "c").2.2.2 (by decide) exRecCW (by decide)).1⟩

/-- C4 counterexample: with `maxMessageContentLength` 5 and flattened content
"abcdefgh", the persisted content is the 5-character truncation plus the
42-character marker — 47 characters, exceeding the configured bound of 5.
The claim's "the persisted content's total length never exceeds the
configured bound" is false. -/
theorem C4_counterexample :
    (storeConversations [exConv4] exLim5 emptyDB).1.messages.rows.map
      (fun p => jsLen p.2.content) = [47] ∧
    effMax exLim5 = 5 ∧ ¬ (47 ≤ 5) := by decide

/-- C4 amended: an over-long flattened content is persisted as its truncation
to `maxMessageContentLength` with the fixed marker appended, its length is
exactly the bound plus the marker length (42) — so it exceeds the configured
bound by exactly the marker — and every message content persisted by
`storeConversations` into a fresh partition is bounded by the configured
limit plus the marker length; truncation never makes ingestion fail. -/
theorem C4_truncation_amended (maxLen : Nat) (s : String) (h : maxLen < jsLen s)
    (limits : StoreLimits) (batch : List Conversation) :
    truncateContent maxLen s = jsSubstringTo s maxLen ++ truncMarker ∧
    jsLen (truncateContent maxLen s) = maxLen + jsLen truncMarker ∧
    ∀ p ∈ (storeConversations batch limits emptyDB).1.messages.rows,
      jsLen p.2.content ≤ effMax limits + jsLen truncMarker := by
  refine ⟨truncateContent_of_long maxLen s h, jsLen_truncateContent_of_long maxLen s h, ?_⟩
  intro p hp
  have hv : p.2 ∈ mapValues (buildMaps (effMax limits) batch).2 := by
    rw [← store_messages_rows limits batch]
    exact List.mem_map_of_mem Prod.snd hp
  exact msgMap_values_bound _ _ _ hv

/-- C4 amended, witnessed at bound 5 and content "abcdefgh". -/
theorem C4_truncation_amended_witness :
    5 < jsLen "abcdefgh" ∧
    truncateContent 5 "abcdefgh" = jsSubstringTo "abcdefgh" 5 ++ truncMarker ∧
    jsLen (truncateContent 5 "abcdefgh") = 5 + jsLen truncMarker :=
  ⟨by decide,
   (C4_truncation_amended 5 "abcdefgh" (by decide) exLimits []).1,
   (C4_truncation_amended 5 "abcdefgh" (by decide) exLimits []).2.1⟩

/-- C5 counterexample: the claim says a node whose flattened text is
whitespace-only is never persisted.  A whitespace-only text longer than
`maxMessageContentLength` (six spaces against a bound of 3) gains the
truncation marker before the emptiness test, trims non-empty, and is
persisted. -/
theorem C5_counterexample :
    jsTrim (joinNL ["      "]) = "" ∧
    (storeConversations [exConv5] exLim3 emptyDB).1.messages.rows.map
      (fun p => p.2.content) = ["   " ++ truncMarker] := by decide

/-- C5 amended: a node whose `message.content.parts` are absent contributes no
message record, and a node whose flattened text is within the configured
bound and empty or whitespace-only contributes no message record; only a
whitespace-only text longer than the bound is persisted (with the marker, see
the counterexample). -/
theorem C5_empty_skipped_amended (maxLen : Nat) (convId : String) (node : MappingNode)
    (m : MapL MsgRecord) :
    ((node.message.bind NodeMessage.content).bind MessageContent.parts = none →
      msgStep maxLen convId m node = m) ∧
    (∀ parts, (node.message.bind NodeMessage.content).bind MessageContent.parts = some parts →
      jsLen (joinNL parts) ≤ maxLen → jsTrim (joinNL parts) = "" →
      msgStep maxLen convId m node = m) := by
  constructor
  · intro h
    cases hm : node.message with
    | none => simp [msgStep, candidateOf, hm]
    | some msg =>
      cases hc : msg.content with
      | none => simp [msgStep, candidateOf, hm, hc]
      | some mc =>
        cases hp : mc.parts with
        | none => simp [msgStep, candidateOf, hm, hc, hp]
        | some parts => simp [hm, hc, hp] at h
  · intro parts hparts hlen htrim
    cases hm : node.message with
    | none => simp [msgStep, candidateOf, hm]
    | some msg =>
      cases hc : msg.content with
      | none => simp [msgStep, candidateOf, hm, hc]
      | some mc =>
        cases hp : mc.parts with
        | none => simp [msgStep, candidateOf, hm, hc, hp]
        | some parts' =>
          have hpp : parts' = parts := by
            simp [hm, hc, hp] at hparts
            exact hparts
          subst hpp
          have hnl : ¬ (maxLen < jsLen (joinNL parts')) := by omega
          have htr : truncateContent maxLen (joinNL parts') = joinNL parts' := by
            simp [truncateContent, hnl]
          simp [msgStep, candidateOf, hm, hc, hp, htr, htrim]

/-- C5 amended, witnessed on a node with no message and on a whitespace-only
node within the bound. -/
theorem C5_empty_skipped_amended_witness :
    ((exNodeNoMsg.message.bind NodeMessage.content).bind MessageContent.parts = none ∧
      msgStep 100 "c" [] exNodeNoMsg = []) ∧
    ((exNodeWs.message.bind NodeMessage.content).bind MessageContent.parts = some ["  "] ∧
      jsLen (joinNL ["  "]) ≤ 100 ∧ jsTrim (joinNL ["  "]) = "" ∧
      msgStep 100 "c" [] exNodeWs = []) :=
  ⟨⟨by decide, (C5_empty_skipped_amended 100 "c" exNodeNoMsg []).1 (by decide)⟩,
   ⟨by decide, by decide, by decide,
    (C5_empty_skipped_amended 100 "c" exNodeWs []).2 ["  "] (by decide) (by decide) (by decide)⟩⟩

/-- C6 counterexample: an archive within every configured size limit whose
single entry's base name matches `conversations.json` exactly, but whose
content fails to parse: extraction does not return a parsed array, refuting
"returns the parsed conversation array exactly when some entry's base name
matches". -/
theorem C6_counterexample :
    extractConversationsJson exZipMalformed exZipLimits = .error .malformedJson ∧
    isTargetEntry "conversations.json" = true ∧
    exZipMalformed.size ≤ exZipLimits.MAX_ZIP_SIZE ∧
    sumSizes exZipMalformed.entries ≤ exZipLimits.MAX_EXTRACTED_SIZE ∧
    (∀ e ∈ exZipMalformed.entries,
      e.uncompressedSize ≤ exZipLimits.MAX_JSON_TEXT_SIZE ∧
      e.textLen ≤ exZipLimits.MAX_JSON_TEXT_SIZE) := by decide

/-- C6 amended: within the configured size limits, extraction succeeds exactly
when some path-safe, non-directory entry's base name matches the payload name
AND the last such entry's content parses as a JSON array; when no safe entry
matches, extraction fails with payload-not-found after scanning all entries;
and only that last matching entry is ever decompressed (none at all in the
not-found case). -/
theorem C6_extract_amended (file : ZipFile) (L : ZipLimits)
    (h1 : file.size ≤ L.MAX_ZIP_SIZE)
    (h2 : sumSizes (file.entries.filter passesScan) ≤ L.MAX_EXTRACTED_SIZE)
    (h3 : ∀ e ∈ file.entries.filter passesScan, e.uncompressedSize ≤ L.MAX_JSON_TEXT_SIZE)
    (h4 : ∀ e ∈ safeTargets file.entries, e.textLen ≤ L.MAX_JSON_TEXT_SIZE) :
    (safeTargets file.entries = [] →
      extractConversationsJson file L = .error .payloadNotFound ∧
      decompressedPaths file L = []) ∧
    (∀ e, (safeTargets file.entries).getLast? = some e →
      decompressedPaths file L = [e.path] ∧
      extractConversationsJson file L =
        (match e.parsed with
          | .syntaxErr => .error .malformedJson
          | .nonArray => .error .notAnArray
          | .array cs => .ok cs)) := by
  have hnz : ¬ L.MAX_ZIP_SIZE < file.size := by omega
  have hscan := scanEntries_ok L file.entries 0 none (by omega) h3
  constructor
  · intro hempty
    rw [hempty] at hscan
    have hs : scanEntries L file.entries 0 none = .ok none := by
      simpa [lastOr] using hscan
    have hrun : extractRun file L = (.error .payloadNotFound, []) := by
      simp only [extractRun, if_neg hnz, hs]
    constructor
    · show (extractRun file L).1 = _
      rw [hrun]
    · show (extractRun file L).2 = _
      rw [hrun]
  · intro e he
    have hlast : lastOr (safeTargets file.entries) none = some e := by
      simp [lastOr, he]
    rw [hlast] at hscan
    have hmem : e ∈ safeTargets file.entries := List.mem_of_mem_getLast? he
    have htl : e.textLen ≤ L.MAX_JSON_TEXT_SIZE := h4 e hmem
    have hnt : ¬ L.MAX_JSON_TEXT_SIZE < e.textLen := by omega
    cases hp : e.parsed with
    | syntaxErr =>
      have hrun : extractRun file L = (.error .malformedJson, [e.path]) := by
        simp only [extractRun, if_neg hnz, hscan, if_neg hnt, hp]
      exact ⟨by show (extractRun file L).2 = _; rw [hrun],
        by show (extractRun file L).1 = _; rw [hrun]⟩
    | nonArray =>
      have hrun : extractRun file L = (.error .notAnArray, [e.path]) := by
        simp only [extractRun, if_neg hnz, hscan, if_neg hnt, hp]
      exact ⟨by show (extractRun file L).2 = _; rw [hrun],
        by show (extractRun file L).1 = _; rw [hrun]⟩
    | array cs =>
      have hrun : extractRun file L = (.ok cs, [e.path]) := by
        simp only [extractRun, if_neg hnz, hscan, if_neg hnt, hp]
      exact ⟨by show (extractRun file L).2 = _; rw [hrun],
        by show (extractRun file L).1 = _; rw [hrun]⟩

/-- C6 amended, witnessed on an archive with one skipped media entry and one
well-formed payload entry. -/
theorem C6_extract_amended_witness :
    (safeTargets exZipOk.entries).getLast? = some exZipOkTarget ∧
    decompressedPaths exZipOk exZipLimits = [exZipOkTarget.path] ∧
    extractConversationsJson exZipOk exZipLimits = .ok [] :=
  ⟨by decide,
   ((C6_extract_amended exZipOk exZipLimits (by decide) (by decide) (by decide)
      (by decide)).2 exZipOkTarget (by decide)).1,
   ((C6_extract_amended exZipOk exZipLimits (by decide) (by decide) (by decide)
      (by decide)).2 exZipOkTarget (by decide)).2⟩

/-- C7 counterexample: an archive whose only entry is named
`../conversations.json` — it matches the target base name but fails path
validation.  The claim says this surfaces to the caller as an UnsafePath
error; the code merely logs a warning, skips the entry, and the caller gets
payload-not-found (there is no UnsafePath error value at all). -/
theorem C7_counterexample :
    extractConversationsJson exZipUnsafeTarget exZipLimits = .error .payloadNotFound ∧
    decompressedPaths exZipUnsafeTarget exZipLimits = [] ∧
    isTargetEntry "../conversations.json" = true ∧
    isSafePath "../conversations.json" true = false := by decide

/-- C7 amended: an archive entry whose path fails validation is never
decompressed — every decompressed entry's path passes the strict
validation.  An unsafe target entry is skipped like any other (the caller
subsequently sees payload-not-found, not an UnsafePath error; see the
counterexample). -/
theorem C7_unsafe_never_decompressed (file : ZipFile) (L : ZipLimits) :
    ∀ p ∈ decompressedPaths file L, isSafePath p true = true := by
  intro p hp
  unfold decompressedPaths extractRun at hp
  by_cases hz : L.MAX_ZIP_SIZE < file.size
  · simp [hz] at hp
  · simp only [if_neg hz] at hp
    cases hscan : scanEntries L file.entries 0 none with
    | error err =>
      rw [hscan] at hp
      simp at hp
    | ok jf =>
      cases jf with
      | none =>
        rw [hscan] at hp
        simp at hp
      | some e =>
        rw [hscan] at hp
        have hpe : p = e.path := by
          by_cases ht : L.MAX_JSON_TEXT_SIZE < e.textLen
          · simp [ht] at hp
            exact hp
          · simp only [if_neg ht] at hp
            cases hq : e.parsed <;> rw [hq] at hp <;> simpa using hp
        subst hpe
        rcases scanEntries_some_safe L file.entries 0 none e hscan with ⟨hs, _⟩ | hfalse
        · exact hs
        · simp at hfalse

/-- C7 amended, witnessed on an archive whose payload entry is decompressed:
its path passes strict validation. -/
theorem C7_unsafe_never_decompressed_witness :
    "conversations.json" ∈ decompressedPaths exZipOk exZipLimits ∧
    isSafePath "conversations.json" true = true :=
  ⟨by decide,
   C7_unsafe_never_decompressed exZipOk exZipLimits "conversations.json" (by decide)⟩

/-- C8 counterexample: the first entry declares 1000 bytes uncompressed
(against a 100-byte `MAX_EXTRACTED_SIZE`) but has an unsafe path, so the scan
skips it without accumulating its size: the running total over the archive's
entries exceeds the limit at the first entry, yet extraction succeeds and
decompresses the payload instead of failing with a size-limit error. -/
theorem C8_counterexample :
    extractConversationsJson exZipBombSkipped exZipLimits = .ok [] ∧
    decompressedPaths exZipBombSkipped exZipLimits = ["conversations.json"] ∧
    exZipLimits.MAX_EXTRACTED_SIZE < sumSizes exZipBombSkipped.entries := by decide

/-- C8 amended: the running total is accumulated over the path-safe,
non-directory entries only; whenever the declared uncompressed sizes of those
entries sum above `MAX_EXTRACTED_SIZE` (and no entry trips the per-entry
limit first), extraction fails with the size-limit error and no entry is
ever decompressed, so decompression work is bounded by the limit. -/
theorem C8_bomb_guard_amended (file : ZipFile) (L : ZipLimits)
    (h1 : file.size ≤ L.MAX_ZIP_SIZE)
    (h2 : ∀ e ∈ file.entries.filter passesScan, e.uncompressedSize ≤ L.MAX_JSON_TEXT_SIZE)
    (h3 : L.MAX_EXTRACTED_SIZE < sumSizes (file.entries.filter passesScan)) :
    extractConversationsJson file L = .error .extractedTooLarge ∧
    decompressedPaths file L = [] := by
  have hnz : ¬ L.MAX_ZIP_SIZE < file.size := by omega
  have hscan := scanEntries_err L file.entries 0 none h2 (by omega) (by omega)
  have hrun : extractRun file L = (.error .extractedTooLarge, []) := by
    simp only [extractRun, if_neg hnz, hscan]
  exact ⟨by show (extractRun file L).1 = _; rw [hrun],
    by show (extractRun file L).2 = _; rw [hrun]⟩

/-- C8 amended, witnessed on an archive whose two safe media entries declare
160 bytes against a 100-byte cap. -/
theorem C8_bomb_guard_amended_witness :
    extractConversationsJson exZipOverflow exZipLimits = .error .extractedTooLarge ∧
    decompressedPaths exZipOverflow exZipLimits = [] :=
  C8_bomb_guard_amended exZipOverflow exZipLimits (by decide) (by decide) (by decide)

/-- C9: for every non-empty (after trimming) query, the list `globalSearch`
returns is sorted by the claimed total order: title-match results before
non-title-match results; among equal title-match status, strictly more
message matches first; among ties on both, strictly greater conversation
`create_time || 0` first — no later element strictly precedes an earlier
one. -/
theorem C9_globalSearch_sorted (store : String → ChatDatabase) (q : String)
    (exportIds : List String) (h : jsTrim q ≠ "") :
    (globalSearch store q exportIds).Pairwise (fun a b => ¬ claimPrecedes b a) := by
  unfold globalSearch
  rw [if_neg h]
  refine (pairwise_sortResults _).imp ?_
  intro a b hab
  exact keyLE_not_claimPrecedes a b hab

/-- C9, witnessed on a store with a title-match-and-one-message conversation,
a three-message-match conversation, and a title-match-only conversation. -/
theorem C9_globalSearch_sorted_witness :
    jsTrim "hello" ≠ "" ∧
    (globalSearch exStore "hello" []).Pairwise (fun a b => ¬ claimPrecedes b a) :=
  ⟨by decide, C9_globalSearch_sorted exStore "hello" [] (by decide)⟩

/-- C10: with a non-empty query and an empty export-id list, `globalSearch`
searches the single default legacy partition (the database named without an
export-id suffix) and returns exactly that partition's matches, sorted; in
particular it returns a non-empty list whenever that partition has matches,
rather than short-circuiting to an empty result. -/
theorem C10_default_partition (store : String → ChatDatabase) (q : String)
    (h : jsTrim q ≠ "") :
    globalSearch store q [] =
      sortResults (searchPartition q (jsToLower q) none (store "ChatGPTDatabase")) ∧
    (globalSearch store q []).length =
      (searchPartition q (jsToLower q) none (store "ChatGPTDatabase")).length ∧
    (searchPartition q (jsToLower q) none (store "ChatGPTDatabase") ≠ [] →
      globalSearch store q [] ≠ []) := by
  have h0 : globalSearch store q [] =
      sortResults (searchPartition q (jsToLower q) none (store "ChatGPTDatabase")) := by
    unfold globalSearch
    rw [if_neg h]
    simp [dbNameOf]
  refine ⟨h0, ?_, ?_⟩
  · rw [h0, length_sortResults]
  · intro hne hcon
    apply hne
    rw [h0] at hcon
    have hlen := congrArg List.length hcon
    rw [length_sortResults] at hlen
    exact List.length_eq_zero.mp hlen
/-- C10, witnessed on a store whose default partition has three matching
conversations: the result equals the sorted default-partition matches and is
non-empty. -/
theorem C10_default_partition_witness :
    jsTrim "hello" ≠ "" ∧
    globalSearch exStore "hello" [] =
      sortResults (searchPartition "hello" (jsToLower "hello") none
        (exStore "ChatGPTDatabase")) ∧
    globalSearch exStore "hello" [] ≠ [] :=
  ⟨by decide,
   (C10_default_partition exStore "hello" (by decide)).1,
   (C10_default_partition exStore "hello" (by decide)).2.2 (by decide)⟩
